import Mathlib

/-!
Verification of the PDF page extractor module (`pdf_craft/pdf/extractor.py`).

The module converts a page's classified layout regions into semantic blocks:
the Block Assembler (`_convert_to_blocks`) folds the region list into blocks
and merges caption regions into preceding asset blocks; the Geometry Analyzer
(`_texts_range`) computes mean line height and horizontal extent; the
Paragraph Shape Classifier (the loop body of `extract`) sets two boolean
shape flags per retained text block.

Python floats are modelled as exact rationals (`ℚ`); list mutation is
modelled by explicit state passing; Python exceptions (`assert`, IndexError)
are modelled with `Except` / `Option`.
-/

namespace PdfCraft

/-- Modelled from the spec: a 2-D point with an x and a y coordinate; the
upstream layout system's rectangles are made of such corner points. -/
structure Point where
  x : ℚ
  y : ℚ
deriving DecidableEq, Repr

/-- Modelled from the spec: `Rectangle` (external, from `doc_page_extractor`)
has four corner points (left-top, right-top, left-bottom, right-bottom);
read-only to this module. -/
structure Rectangle where
  lt : Point
  rt : Point
  lb : Point
  rb : Point
deriving DecidableEq, Repr

/-- Modelled from the spec: iterating a `Rectangle` (Python `for x, _ in rect`)
yields its corner points. -/
def Rectangle.corners (r : Rectangle) : List Point :=
  [r.lt, r.rt, r.lb, r.rb]

/-- Modelled from the spec: `rect.size[1]` is the rectangle's vertical extent
(height), the spread of the corner y-coordinates. -/
def Rectangle.height (r : Rectangle) : ℚ :=
  max (max r.lt.y r.rt.y) (max r.lb.y r.rb.y) -
    min (min r.lt.y r.rt.y) (min r.lb.y r.rb.y)

/-- `TextKind` enum of `extractor.py`. -/
inductive TextKind where
  | TITLE
  | PLAIN_TEXT
  | ABANDON
deriving DecidableEq, Repr

/-- `Text` dataclass of `extractor.py`. -/
structure Text where
  content : String
  rank : ℚ
  rect : Rectangle
deriving DecidableEq, Repr

/-- `TextBlock` dataclass of `extractor.py`; the two boolean flags have
dataclass default `False`. -/
structure TextBlock where
  rect : Rectangle
  kind : TextKind
  texts : List Text
  has_paragraph_indentation : Bool := false
  last_line_touch_end : Bool := false
deriving DecidableEq, Repr

/-- Modelled from the spec: an image is an opaque raster crop produced by the
external `clip` collaborator; we record the clipped region's rectangle. -/
structure Image where
  clipRect : Rectangle
deriving DecidableEq, Repr

/-- `AssetBlock` dataclass of `extractor.py`. -/
structure AssetBlock where
  rect : Rectangle
  image : Image
  texts : List Text
deriving DecidableEq, Repr

/-- `Block = TextBlock | AssetBlock` of `extractor.py`. -/
inductive Block where
  | text (tb : TextBlock)
  | asset (ab : AssetBlock)
deriving DecidableEq, Repr

/-- `LayoutClass` enum (external, from `doc_page_extractor`): the ten region
type tags the module consumes. -/
inductive LayoutClass where
  | TITLE
  | PLAIN_TEXT
  | ABANDON
  | FIGURE
  | TABLE
  | ISOLATE_FORMULA
  | FIGURE_CAPTION
  | TABLE_CAPTION
  | TABLE_FOOTNOTE
  | FORMULA_CAPTION
deriving DecidableEq, Repr

/-- `OCRFragment` (external): recognized text, confidence rank, rectangle. -/
structure OCRFragment where
  text : String
  rank : ℚ
  rect : Rectangle
deriving DecidableEq, Repr

/-- `Layout` (external): one classified region with its OCR fragments. -/
structure Layout where
  cls : LayoutClass
  rect : Rectangle
  fragments : List OCRFragment
deriving DecidableEq, Repr

/-- Modelled from the spec: the external page-clip collaborator
`(page_source, region) -> image` producing a raster crop of the region's
rectangle. -/
def clip (layout : Layout) : Image :=
  ⟨layout.rect⟩

/-- Python exceptions the extractor can raise: the `assert` in
`_convert_to_blocks` and the IndexError of `block.texts[0]` in `extract`. -/
inductive PageError where
  | assertionError
  | indexError
deriving DecidableEq, Repr

/-- `PDFPageExtractor._convert_to_text`: 1:1 conversion of OCR fragments. -/
def convertToText (fragments : List OCRFragment) : List Text :=
  fragments.map fun f => ⟨f.text, f.rank, f.rect⟩

/-- The loop body of `previous_block`, running over the store from its end
(the Python loop walks `i = len(store)-1, …, 0`): return the block at the
first entry whose stored class equals the target `cls`; otherwise return
`none` unless the target `cls` itself is `ABANDON` (this is the code's
literal condition `cls != LayoutClass.ABANDON`), in which case keep
scanning. -/
def previousBlockAux (cls : LayoutClass) : List (LayoutClass × Block) → Option Block
  | [] => none
  | (blockCls, block) :: rest =>
    if cls = blockCls then some block
    else if cls ≠ LayoutClass.ABANDON then none
    else previousBlockAux cls rest

/-- `previous_block` of `_convert_to_blocks`: backward scan of the store. -/
def previousBlock (cls : LayoutClass) (store : List (LayoutClass × Block)) : Option Block :=
  previousBlockAux cls store.reverse

/-- The caption branches of `_convert_to_blocks`, acting on the reversed
store: find the entry `previous_block` would return; if none, leave the
store unchanged; if its block is not an `AssetBlock` the Python `assert`
fires (modelled as `Except.error`); otherwise extend that asset's `texts`
in place. -/
def mergeCaptionRev (cls : LayoutClass) (newTexts : List Text) :
    List (LayoutClass × Block) → Except PageError (List (LayoutClass × Block))
  | [] => Except.ok []
  | (blockCls, block) :: rest =>
    if cls = blockCls then
      match block with
      | Block.asset a =>
        Except.ok ((blockCls, Block.asset ⟨a.rect, a.image, a.texts ++ newTexts⟩) :: rest)
      | Block.text _ => Except.error PageError.assertionError
    else if cls ≠ LayoutClass.ABANDON then Except.ok ((blockCls, block) :: rest)
    else (mergeCaptionRev cls newTexts rest).map fun r => (blockCls, block) :: r

/-- Caption handling on the store in its natural order. -/
def mergeCaption (cls : LayoutClass) (newTexts : List Text)
    (store : List (LayoutClass × Block)) : Except PageError (List (LayoutClass × Block)) :=
  (mergeCaptionRev cls newTexts store.reverse).map List.reverse

/-- One iteration of the `for layout in layouts` loop of
`_convert_to_blocks`. -/
def stepLayout (store : List (LayoutClass × Block)) (layout : Layout) :
    Except PageError (List (LayoutClass × Block)) :=
  match layout.cls with
  | LayoutClass.TITLE =>
    Except.ok (store ++ [(LayoutClass.TITLE,
      Block.text ⟨layout.rect, TextKind.TITLE, convertToText layout.fragments, false, false⟩)])
  | LayoutClass.PLAIN_TEXT =>
    Except.ok (store ++ [(LayoutClass.PLAIN_TEXT,
      Block.text ⟨layout.rect, TextKind.PLAIN_TEXT, convertToText layout.fragments, false, false⟩)])
  | LayoutClass.ABANDON =>
    Except.ok (store ++ [(LayoutClass.ABANDON,
      Block.text ⟨layout.rect, TextKind.ABANDON, convertToText layout.fragments, false, false⟩)])
  | LayoutClass.FIGURE =>
    Except.ok (store ++ [(LayoutClass.FIGURE,
      Block.asset ⟨layout.rect, clip layout, []⟩)])
  | LayoutClass.TABLE =>
    Except.ok (store ++ [(LayoutClass.TABLE,
      Block.asset ⟨layout.rect, clip layout, []⟩)])
  | LayoutClass.ISOLATE_FORMULA =>
    Except.ok (store ++ [(LayoutClass.ISOLATE_FORMULA,
      Block.asset ⟨layout.rect, clip layout, []⟩)])
  | LayoutClass.FIGURE_CAPTION =>
    mergeCaption LayoutClass.FIGURE (convertToText layout.fragments) store
  | LayoutClass.TABLE_CAPTION =>
    mergeCaption LayoutClass.TABLE (convertToText layout.fragments) store
  | LayoutClass.TABLE_FOOTNOTE =>
    mergeCaption LayoutClass.TABLE (convertToText layout.fragments) store
  | LayoutClass.FORMULA_CAPTION =>
    mergeCaption LayoutClass.ISOLATE_FORMULA (convertToText layout.fragments) store

/-- The `for layout in layouts` loop of `_convert_to_blocks`. -/
def convertToBlocksAux (store : List (LayoutClass × Block)) :
    List Layout → Except PageError (List (LayoutClass × Block))
  | [] => Except.ok store
  | l :: ls =>
    match stepLayout store l with
    | Except.error e => Except.error e
    | Except.ok s => convertToBlocksAux s ls

/-- `PDFPageExtractor._convert_to_blocks`:
`return [block for _, block in store]`. -/
def convertToBlocks (layouts : List Layout) : Except PageError (List Block) :=
  (convertToBlocksAux [] layouts).map fun s => s.map Prod.snd

/-- Accumulator state of the `_texts_range` loop: running height sum, text
count, and the running min/max x.  Python initializes the min and max with
`float("inf")` / `float("-inf")`; in exact arithmetic that idiom is "no
value yet", modelled with `Option` (`none` = still at the sentinel). -/
structure RangeAcc where
  sumH : ℚ
  count : ℕ
  x1 : Option ℚ
  x2 : Option ℚ
deriving DecidableEq, Repr

/-- `x1 = min(x1, x)` against a possibly-still-infinite running value. -/
def optMin (o : Option ℚ) (x : ℚ) : ℚ :=
  match o with
  | none => x
  | some y => min y x

/-- `x2 = max(x2, x)` against a possibly-still-infinite running value. -/
def optMax (o : Option ℚ) (x : ℚ) : ℚ :=
  match o with
  | none => x
  | some y => max y x

/-- Innermost loop of `_texts_range`: `for x, _ in text.rect`. -/
def accCorner (acc : RangeAcc) (p : Point) : RangeAcc :=
  { acc with x1 := some (optMin acc.x1 p.x), x2 := some (optMax acc.x2 p.x) }

/-- Middle loop of `_texts_range`: `for text in block.texts`. -/
def accText (acc : RangeAcc) (t : Text) : RangeAcc :=
  t.rect.corners.foldl accCorner
    { acc with sumH := acc.sumH + t.rect.height, count := acc.count + 1 }

/-- Outer loop of `_texts_range`: skip non-`TextBlock`s and `ABANDON`
blocks, fold the rest's texts. -/
def accBlock (acc : RangeAcc) (b : Block) : RangeAcc :=
  match b with
  | Block.asset _ => acc
  | Block.text tb =>
    if tb.kind = TextKind.ABANDON then acc
    else tb.texts.foldl accText acc

/-- `PDFPageExtractor._texts_range`: `(0, 0, 0)` when no text qualified,
otherwise `(sum_lines_height / texts_count, x1, x2)` (the `getD 0` defaults
are unreachable: a positive count forces the min/max to hold a value). -/
def textsRange (blocks : List Block) : ℚ × ℚ × ℚ :=
  let acc := blocks.foldl accBlock ⟨0, 0, none, none⟩
  if acc.count = 0 then (0, 0, 0)
  else (acc.sumH / (acc.count : ℚ), (acc.x1.getD 0, acc.x2.getD 0))

/-- The texts `_texts_range` aggregates from one block: the texts of a
non-ABANDON `TextBlock`, nothing from others. -/
def blockTexts (b : Block) : List Text :=
  match b with
  | Block.asset _ => []
  | Block.text tb => if tb.kind = TextKind.ABANDON then [] else tb.texts

/-- All texts `_texts_range` aggregates from a block list. -/
def qualifyingTexts (blocks : List Block) : List Text :=
  (blocks.map blockTexts).flatten

/-- The x-coordinates of a rectangle's corner points. -/
def cornerXs (r : Rectangle) : List ℚ :=
  r.corners.map Point.x

/-- Minimum of a list (0 on the empty list, which every use guards away). -/
def listMin : List ℚ → ℚ
  | [] => 0
  | x :: xs => xs.foldl min x

/-- Maximum of a list (0 on the empty list, which every use guards away). -/
def listMax : List ℚ → ℚ
  | [] => 0
  | x :: xs => xs.foldl max x

/-- The Geometry Analyzer's contract in the spec's words: the triple
(mean of the rectangle heights, minimum x over all corner points, maximum x
over all corner points) over exactly the qualifying texts, with `(0,0,0)`
when none qualify. -/
def geometrySpec (blocks : List Block) : ℚ × ℚ × ℚ :=
  let ts := qualifyingTexts blocks
  if ts = [] then (0, 0, 0)
  else ((ts.map fun t => t.rect.height).sum / (ts.length : ℚ),
    (listMin (ts.map fun t => cornerXs t.rect).flatten,
     listMax (ts.map fun t => cornerXs t.rect).flatten))

/-- `(first_text.rect.lt[0] + first_text.rect.lb[0]) / 2`: the horizontal
midpoint of a text's left edge. -/
def leftMid (t : Text) : ℚ :=
  (t.rect.lt.x + t.rect.lb.x) / 2

/-- `(last_text.rect.rt[0] + last_text.rect.rb[0]) / 2`: the horizontal
midpoint of a text's right edge. -/
def rightMid (t : Text) : ℚ :=
  (t.rect.rt.x + t.rect.rb.x) / 2

/-- One iteration of the shape-classification loop in `extract`: asset
blocks and ABANDON text blocks are skipped (`continue`); otherwise the
baseline is the page statistics for a single-line block and the block's own
statistics otherwise, and the two flags are assigned from strict
comparisons.  `block.texts[0]` on an empty list raises IndexError,
modelled as `none`. -/
def classifyBlock (pageRange : ℚ × ℚ × ℚ) (b : Block) : Option Block :=
  match b with
  | Block.asset a => some (Block.asset a)
  | Block.text tb =>
    if tb.kind = TextKind.ABANDON then some (Block.text tb)
    else
      let stats := if tb.texts.length = 1 then pageRange else textsRange [Block.text tb]
      match tb.texts.head?, tb.texts.getLast? with
      | some firstText, some lastText =>
        some (Block.text { tb with
          has_paragraph_indentation := decide (leftMid firstText - stats.2.1 > stats.1),
          last_line_touch_end := decide (stats.2.2 - rightMid lastText < stats.1) })
      | _, _ => none

/-- The classification loop over the page's blocks, all against the page
statistics computed up front. -/
def classifyBlocks (pageRange : ℚ × ℚ × ℚ) : List Block → Option (List Block)
  | [] => some []
  | b :: bs =>
    match classifyBlock pageRange b, classifyBlocks pageRange bs with
    | some b2, some bs2 => some (b2 :: bs2)
    | _, _ => none

/-- The per-page body of `extract` after assembly: compute `page_range`
once, then classify every block. -/
def classifyPage (blocks : List Block) : Option (List Block) :=
  classifyBlocks (textsRange blocks) blocks

/-- The per-page pipeline of `extract`: assemble blocks, classify shapes,
yield the block list. -/
def extractPage (layouts : List Layout) : Except PageError (List Block) :=
  match convertToBlocks layouts with
  | Except.error e => Except.error e
  | Except.ok blocks =>
    match classifyPage blocks with
    | none => Except.error PageError.indexError
    | some out => Except.ok out

/-- `xs.foldl (min) o` against a possibly-still-infinite running value:
how `_texts_range`'s `x1` evolves over a stretch of corner x-values. -/
def foldMin (o : Option ℚ) (xs : List ℚ) : Option ℚ :=
  xs.foldl (fun a x => some (optMin a x)) o

/-- Running `x2` over a stretch of corner x-values. -/
def foldMax (o : Option ℚ) (xs : List ℚ) : Option ℚ :=
  xs.foldl (fun a x => some (optMax a x)) o

/-- All corner x-coordinates `_texts_range` visits over a block list. -/
def allCornerXs (blocks : List Block) : List ℚ :=
  ((qualifyingTexts blocks).map fun t => cornerXs t.rect).flatten

/-- The bounding rectangle of either kind of block. -/
def blockRect (b : Block) : Rectangle :=
  match b with
  | Block.text tb => tb.rect
  | Block.asset ab => ab.rect

/-- The `TextBlock` payload of a block, if it is one.  Caption merging
touches only asset blocks, so this projection is invariant under it. -/
def textPart (b : Block) : Option TextBlock :=
  match b with
  | Block.text tb => some tb
  | Block.asset _ => none

/-- The `TextBlock` a region produces, per the assembler's construction
(`none` for regions that produce an asset block or no block). -/
def layoutTextPart (l : Layout) : Option TextBlock :=
  match l.cls with
  | LayoutClass.TITLE =>
    some ⟨l.rect, TextKind.TITLE, convertToText l.fragments, false, false⟩
  | LayoutClass.PLAIN_TEXT =>
    some ⟨l.rect, TextKind.PLAIN_TEXT, convertToText l.fragments, false, false⟩
  | LayoutClass.ABANDON =>
    some ⟨l.rect, TextKind.ABANDON, convertToText l.fragments, false, false⟩
  | _ => none

/-- The four caption region types. -/
def isCaption (c : LayoutClass) : Bool :=
  match c with
  | LayoutClass.FIGURE_CAPTION => true
  | LayoutClass.TABLE_CAPTION => true
  | LayoutClass.TABLE_FOOTNOTE => true
  | LayoutClass.FORMULA_CAPTION => true
  | _ => false

/-- The asset class a caption region's backward search targets. -/
def captionTarget (c : LayoutClass) : Option LayoutClass :=
  match c with
  | LayoutClass.FIGURE_CAPTION => some LayoutClass.FIGURE
  | LayoutClass.TABLE_CAPTION => some LayoutClass.TABLE
  | LayoutClass.TABLE_FOOTNOTE => some LayoutClass.TABLE
  | LayoutClass.FORMULA_CAPTION => some LayoutClass.ISOLATE_FORMULA
  | _ => none

/-- The non-caption regions of a page, the ones that create blocks. -/
def nonCaptions (layouts : List Layout) : List Layout :=
  layouts.filter fun l => !isCaption l.cls

/-- Store invariant: an entry stored under an asset class holds an
`AssetBlock`. -/
def entryInv (e : LayoutClass × Block) : Prop :=
  (e.1 = LayoutClass.FIGURE ∨ e.1 = LayoutClass.TABLE ∨ e.1 = LayoutClass.ISOLATE_FORMULA) →
    ∃ a, e.2 = Block.asset a

/-- The store invariant over a whole store. -/
def storeInv (store : List (LayoutClass × Block)) : Prop :=
  ∀ e ∈ store, entryInv e

section Fixtures

/-- Shorthand for a point. -/
def pt (a b : ℚ) : Point := ⟨a, b⟩

/-- An axis-aligned rectangle from its horizontal and vertical extents. -/
def rOf (x1 y1 x2 y2 : ℚ) : Rectangle :=
  ⟨pt x1 y1, pt x2 y1, pt x1 y2, pt x2 y2⟩

/-- A sample caption fragment. -/
def fragCap : OCRFragment := ⟨"cap", 1, rOf 0 10 4 12⟩

/-- A FIGURE region. -/
def figL : Layout := ⟨LayoutClass.FIGURE, rOf 0 0 10 8, []⟩

/-- An ABANDON region between the figure and its caption. -/
def abL : Layout := ⟨LayoutClass.ABANDON, rOf 0 9 10 10, []⟩

/-- A FIGURE_CAPTION region with one fragment. -/
def capL : Layout := ⟨LayoutClass.FIGURE_CAPTION, rOf 0 10 4 12, [fragCap]⟩

/-- The asset block the assembler builds for `figL`. -/
def figAsset : AssetBlock := ⟨figL.rect, clip figL, []⟩

/-- The text block the assembler builds for `abL`. -/
def abTB : TextBlock := ⟨abL.rect, TextKind.ABANDON, [], false, false⟩

/-- First line of the zero-height page: left edge at x = 5. -/
def tFirst : Text := ⟨"a", 1, rOf 5 0 9 0⟩

/-- Second line of the zero-height page: left edge at x = 0. -/
def tSecond : Text := ⟨"b", 1, rOf 0 0 4 0⟩

/-- A two-line block whose lines all have height 0: its local mean line
height is 0 while its first line starts 5 units right of its leftmost
text. -/
def cexBlock : TextBlock :=
  ⟨rOf 0 0 9 0, TextKind.PLAIN_TEXT, [tFirst, tSecond], false, false⟩

/-- What the classifier makes of `cexBlock`. -/
def cexBlockOut : TextBlock :=
  ⟨rOf 0 0 9 0, TextKind.PLAIN_TEXT, [tFirst, tSecond], true, false⟩

/-- A store holding only a TABLE asset, so a figure caption finds no
target. -/
def storeTable : List (LayoutClass × Block) :=
  [(LayoutClass.TABLE, Block.asset ⟨rOf 0 0 6 6, Image.mk (rOf 0 0 6 6), []⟩)]

/-- A text block stored (unreachably in real runs) under the FIGURE class,
to exercise the assertion branch. -/
def tbBad : TextBlock := ⟨rOf 0 0 3 3, TextKind.PLAIN_TEXT, [], false, false⟩

/-- A store violating the assembler's construction invariant. -/
def storeBad : List (LayoutClass × Block) :=
  [(LayoutClass.FIGURE, Block.text tbBad)]

/-- A TITLE region with one OCR fragment. -/
def titleL : Layout := ⟨LayoutClass.TITLE, rOf 0 0 10 2, [⟨"t", 1, rOf 1 0 9 2⟩]⟩

/-- A TITLE region with no OCR fragments. -/
def emptyTitleL : Layout := ⟨LayoutClass.TITLE, rOf 0 0 10 2, []⟩

/-- The (empty-texts) block assembled from `emptyTitleL`. -/
def emptyTitleTB : TextBlock := ⟨rOf 0 0 10 2, TextKind.TITLE, [], false, false⟩

/-- A single-line block sitting to the right of the page's leftmost text. -/
def oneLineTB : TextBlock :=
  ⟨rOf 4 0 9 1, TextKind.PLAIN_TEXT, [⟨"s", 1, rOf 4 0 9 1⟩], false, false⟩

/-- A two-line companion block fixing the page-wide statistics. -/
def twoLineTB : TextBlock :=
  ⟨rOf 0 2 9 6, TextKind.PLAIN_TEXT,
    [⟨"u", 1, rOf 0 2 9 3⟩, ⟨"v", 1, rOf 0 4 6 5⟩], false, false⟩

/-- The two-block sample page for the shape-classifier witnesses. -/
def samplePage : List Block := [Block.text oneLineTB, Block.text twoLineTB]

/-- What the classifier makes of `oneLineTB` on `samplePage` (page-wide
baseline `(1, 0, 9)`): indented and flush right. -/
def oneLineOutTB : TextBlock :=
  ⟨rOf 4 0 9 1, TextKind.PLAIN_TEXT, [⟨"s", 1, rOf 4 0 9 1⟩], true, true⟩

/-- The classified sample page: the two-line block keeps default-false
flags. -/
def samplePageOut : List Block := [Block.text oneLineOutTB, Block.text twoLineTB]

/-- The single OCR line of `titleL`. -/
def titleText : Text := ⟨"t", 1, rOf 1 0 9 2⟩

/-- The block assembled from `titleL`. -/
def titleTB : TextBlock := ⟨rOf 0 0 10 2, TextKind.TITLE, [titleText], false, false⟩

/-- What the classifier makes of `titleTB` alone on its page. -/
def titleOutTB : TextBlock := ⟨rOf 0 0 10 2, TextKind.TITLE, [titleText], false, true⟩

end Fixtures

section GeometryLemmas

lemma foldMin_cons (o : Option ℚ) (x : ℚ) (xs : List ℚ) :
    foldMin o (x :: xs) = foldMin (some (optMin o x)) xs := rfl

lemma foldMax_cons (o : Option ℚ) (x : ℚ) (xs : List ℚ) :
    foldMax o (x :: xs) = foldMax (some (optMax o x)) xs := rfl

lemma foldMin_append (o : Option ℚ) (xs ys : List ℚ) :
    foldMin o (xs ++ ys) = foldMin (foldMin o xs) ys := by
  simp [foldMin, List.foldl_append]

lemma foldMax_append (o : Option ℚ) (xs ys : List ℚ) :
    foldMax o (xs ++ ys) = foldMax (foldMax o xs) ys := by
  simp [foldMax, List.foldl_append]

lemma foldl_accCorner (ps : List Point) (a : RangeAcc) :
    ps.foldl accCorner a =
      ⟨a.sumH, a.count, foldMin a.x1 (ps.map Point.x), foldMax a.x2 (ps.map Point.x)⟩ := by
  induction ps generalizing a with
  | nil => rfl
  | cons p ps ih =>
    rw [List.foldl_cons, ih, List.map_cons, foldMin_cons, foldMax_cons]
    rfl

lemma foldl_accText (ts : List Text) (a : RangeAcc) :
    ts.foldl accText a =
      ⟨a.sumH + (ts.map fun t => t.rect.height).sum, a.count + ts.length,
       foldMin a.x1 ((ts.map fun t => cornerXs t.rect).flatten),
       foldMax a.x2 ((ts.map fun t => cornerXs t.rect).flatten)⟩ := by
  induction ts generalizing a with
  | nil => simp [foldMin, foldMax]
  | cons t ts ih =>
    rw [List.foldl_cons]
    show ts.foldl accText (t.rect.corners.foldl accCorner
      ⟨a.sumH + t.rect.height, a.count + 1, a.x1, a.x2⟩) = _
    rw [foldl_accCorner, ih]
    simp only [List.map_cons, List.flatten_cons, List.sum_cons, List.length_cons,
      foldMin_append, foldMax_append]
    refine congrArg₂ (fun u v => RangeAcc.mk u v _ _) (by ring) (by omega)

lemma qualifyingTexts_cons (b : Block) (bs : List Block) :
    qualifyingTexts (b :: bs) = blockTexts b ++ qualifyingTexts bs := by
  simp [qualifyingTexts]

lemma foldl_accBlock (bs : List Block) (a : RangeAcc) :
    bs.foldl accBlock a =
      ⟨a.sumH + ((qualifyingTexts bs).map fun t => t.rect.height).sum,
       a.count + (qualifyingTexts bs).length,
       foldMin a.x1 (allCornerXs bs), foldMax a.x2 (allCornerXs bs)⟩ := by
  induction bs generalizing a with
  | nil => simp [qualifyingTexts, allCornerXs, foldMin, foldMax]
  | cons b bs ih =>
    rw [List.foldl_cons]
    have hsplit : ∀ a2 : RangeAcc, accBlock a2 b = (blockTexts b).foldl accText a2 := by
      intro a2
      cases b with
      | asset ab => rfl
      | text tb =>
        by_cases hk : tb.kind = TextKind.ABANDON
        · simp [accBlock, blockTexts, hk]
        · simp [accBlock, blockTexts, hk]
    rw [hsplit, foldl_accText, ih]
    simp only [allCornerXs, qualifyingTexts_cons, List.map_append, List.flatten_append,
      List.sum_append, List.length_append, foldMin_append, foldMax_append]
    refine congrArg₂ (fun u v => RangeAcc.mk u v _ _) (by ring) (by omega)

lemma foldMin_some (m : ℚ) (xs : List ℚ) :
    foldMin (some m) xs = some (xs.foldl min m) := by
  induction xs generalizing m with
  | nil => rfl
  | cons x xs ih => rw [foldMin_cons, List.foldl_cons]; exact ih _

lemma foldMax_some (m : ℚ) (xs : List ℚ) :
    foldMax (some m) xs = some (xs.foldl max m) := by
  induction xs generalizing m with
  | nil => rfl
  | cons x xs ih => rw [foldMax_cons, List.foldl_cons]; exact ih _

lemma foldMin_none (xs : List ℚ) (h : xs ≠ []) :
    foldMin none xs = some (listMin xs) := by
  cases xs with
  | nil => exact absurd rfl h
  | cons x xs => rw [foldMin_cons, listMin]; exact foldMin_some _ _

lemma foldMax_none (xs : List ℚ) (h : xs ≠ []) :
    foldMax none xs = some (listMax xs) := by
  cases xs with
  | nil => exact absurd rfl h
  | cons x xs => rw [foldMax_cons, listMax]; exact foldMax_some _ _

lemma allCornerXs_ne_nil (bs : List Block) (h : qualifyingTexts bs ≠ []) :
    allCornerXs bs ≠ [] := by
  cases hq : qualifyingTexts bs with
  | nil => exact absurd hq h
  | cons t ts =>
    simp [allCornerXs, hq, cornerXs, Rectangle.corners]

/-- Shared core of the Geometry Analyzer claims: the imperative
`_texts_range` fold computes exactly the spec's aggregate. -/
lemma textsRange_eq_spec (blocks : List Block) : textsRange blocks = geometrySpec blocks := by
  unfold textsRange geometrySpec
  rw [foldl_accBlock]
  by_cases h : qualifyingTexts blocks = []
  · simp [h]
  · have hlen : (qualifyingTexts blocks).length ≠ 0 := by
      simpa [List.length_eq_zero] using h
    have hx : allCornerXs blocks ≠ [] := allCornerXs_ne_nil blocks h
    simp only [Nat.zero_add, zero_add, hlen, h, if_neg, ite_false]
    rw [foldMin_none _ hx, foldMax_none _ hx]
    simp [allCornerXs]

lemma foldl_min_le_init (xs : List ℚ) : ∀ a : ℚ, xs.foldl min a ≤ a := by
  induction xs with
  | nil => intro a; simp
  | cons x xs ih =>
    intro a
    calc xs.foldl min (min a x) ≤ min a x := ih _
    _ ≤ a := min_le_left _ _

lemma foldl_min_le_of_mem {x : ℚ} {xs : List ℚ} (h : x ∈ xs) :
    ∀ a : ℚ, xs.foldl min a ≤ x := by
  induction xs with
  | nil => cases h
  | cons y ys ih =>
    intro a
    rcases List.mem_cons.mp h with rfl | hm
    · calc ys.foldl min (min a x) ≤ min a x := foldl_min_le_init _ _
      _ ≤ x := min_le_right _ _
    · exact ih hm _

lemma init_le_foldl_max (xs : List ℚ) : ∀ a : ℚ, a ≤ xs.foldl max a := by
  induction xs with
  | nil => intro a; simp
  | cons x xs ih =>
    intro a
    calc a ≤ max a x := le_max_left _ _
    _ ≤ xs.foldl max (max a x) := ih _

lemma le_foldl_max_of_mem {x : ℚ} {xs : List ℚ} (h : x ∈ xs) :
    ∀ a : ℚ, x ≤ xs.foldl max a := by
  induction xs with
  | nil => cases h
  | cons y ys ih =>
    intro a
    rcases List.mem_cons.mp h with rfl | hm
    · calc x ≤ max a x := le_max_right _ _
      _ ≤ ys.foldl max (max a x) := init_le_foldl_max _ _
    · exact ih hm _

lemma listMin_le_of_mem {x : ℚ} {xs : List ℚ} (h : x ∈ xs) : listMin xs ≤ x := by
  cases xs with
  | nil => cases h
  | cons y ys =>
    rw [listMin]
    rcases List.mem_cons.mp h with rfl | hm
    · exact foldl_min_le_init _ _
    · exact foldl_min_le_of_mem hm _

lemma le_listMax_of_mem {x : ℚ} {xs : List ℚ} (h : x ∈ xs) : x ≤ listMax xs := by
  cases xs with
  | nil => cases h
  | cons y ys =>
    rw [listMax]
    rcases List.mem_cons.mp h with rfl | hm
    · exact init_le_foldl_max _ _
    · exact le_foldl_max_of_mem hm _

lemma mem_allCornerXs {t : Text} {bs : List Block} (ht : t ∈ qualifyingTexts bs)
    {x : ℚ} (hx : x ∈ cornerXs t.rect) : x ∈ allCornerXs bs := by
  exact List.mem_flatten.mpr ⟨cornerXs t.rect, List.mem_map_of_mem _ ht, hx⟩

/-- Bounds used by the degenerate-geometry claim: a qualifying text's right
corners never exceed the computed `x2`. -/
lemma textsRange_right_bound {t : Text} {bs : List Block} (ht : t ∈ qualifyingTexts bs) :
    t.rect.rt.x ≤ (textsRange bs).2.2 ∧ t.rect.rb.x ≤ (textsRange bs).2.2 := by
  rw [textsRange_eq_spec]
  unfold geometrySpec
  have h : qualifyingTexts bs ≠ [] := List.ne_nil_of_mem ht
  simp only [h, ite_false]
  constructor
  · exact le_listMax_of_mem (by
      exact mem_allCornerXs ht (by simp [cornerXs, Rectangle.corners]))
  · exact le_listMax_of_mem (by
      exact mem_allCornerXs ht (by simp [cornerXs, Rectangle.corners]))

end GeometryLemmas

section AssemblerLemmas

lemma storeInv_nil : storeInv [] := by
  intro e he
  cases he

lemma storeInv_append_one {store : List (LayoutClass × Block)} {e : LayoutClass × Block}
    (h : storeInv store) (he : entryInv e) : storeInv (store ++ [e]) := by
  intro e2 he2
  rcases List.mem_append.mp he2 with hm | hm
  · exact h e2 hm
  · rcases List.mem_singleton.mp hm with rfl
    exact he

lemma entryInv_textClass {c : LayoutClass} {b : Block}
    (h : c = LayoutClass.TITLE ∨ c = LayoutClass.PLAIN_TEXT ∨ c = LayoutClass.ABANDON) :
    entryInv (c, b) := by
  intro hc
  rcases h with rfl | rfl | rfl <;> rcases hc with h2 | h2 | h2 <;> cases h2

lemma entryInv_asset (c : LayoutClass) (a : AssetBlock) : entryInv (c, Block.asset a) := by
  intro _
  exact ⟨a, rfl⟩

lemma mergeCaptionRev_ok (cls : LayoutClass) (ts : List Text)
    (rev : List (LayoutClass × Block)) (hinv : ∀ e ∈ rev, entryInv e)
    (hcls : cls = LayoutClass.FIGURE ∨ cls = LayoutClass.TABLE ∨ cls = LayoutClass.ISOLATE_FORMULA) :
    ∃ r, mergeCaptionRev cls ts rev = Except.ok r ∧
      r.map Prod.fst = rev.map Prod.fst ∧
      r.map (fun e => blockRect e.2) = rev.map (fun e => blockRect e.2) ∧
      r.map (fun e => textPart e.2) = rev.map (fun e => textPart e.2) ∧
      ∀ e ∈ r, entryInv e := by
  cases rev with
  | nil =>
    exact ⟨[], rfl, rfl, rfl, rfl, by intro e he; cases he⟩
  | cons e rest =>
    obtain ⟨c, b⟩ := e
    by_cases hc : cls = c
    · obtain ⟨a, rfl⟩ := hinv (c, b) (List.mem_cons_self _ _) (hc ▸ hcls)
      refine ⟨(c, Block.asset ⟨a.rect, a.image, a.texts ++ ts⟩) :: rest, ?_, ?_, ?_, ?_, ?_⟩
      · simp [mergeCaptionRev, hc]
      · rfl
      · simp [blockRect]
      · rfl
      · intro e2 he2
        rcases List.mem_cons.mp he2 with rfl | hm
        · exact entryInv_asset _ _
        · exact hinv e2 (List.mem_cons_of_mem _ hm)
    · have hab : cls ≠ LayoutClass.ABANDON := by
        rcases hcls with rfl | rfl | rfl <;> simp
      refine ⟨(c, b) :: rest, ?_, rfl, rfl, rfl, hinv⟩
      simp [mergeCaptionRev, hc, hab]

lemma mergeCaption_ok (cls : LayoutClass) (ts : List Text)
    (store : List (LayoutClass × Block)) (hinv : storeInv store)
    (hcls : cls = LayoutClass.FIGURE ∨ cls = LayoutClass.TABLE ∨ cls = LayoutClass.ISOLATE_FORMULA) :
    ∃ s2, mergeCaption cls ts store = Except.ok s2 ∧
      s2.map Prod.fst = store.map Prod.fst ∧
      s2.map (fun e => blockRect e.2) = store.map (fun e => blockRect e.2) ∧
      s2.map (fun e => textPart e.2) = store.map (fun e => textPart e.2) ∧
      storeInv s2 := by
  obtain ⟨r, hr, h1, h2, h3, h4⟩ :=
    mergeCaptionRev_ok cls ts store.reverse
      (fun e he => hinv e (List.mem_reverse.mp he)) hcls
  refine ⟨r.reverse, ?_, ?_, ?_, ?_, ?_⟩
  · simp only [mergeCaption, hr]
    rfl
  · rw [List.map_reverse, h1, ← List.map_reverse, List.reverse_reverse]
  · rw [List.map_reverse, h2, ← List.map_reverse, List.reverse_reverse]
  · rw [List.map_reverse, h3, ← List.map_reverse, List.reverse_reverse]
  · intro e he
    exact h4 e (List.mem_reverse.mp he)

/-- Shared core of the Block Assembler claims: from any invariant-satisfying
store, the region loop never raises, keeps the invariant, and appends to the
store's class, rectangle and text-payload traces exactly one entry per
non-caption region, in input order. -/
lemma assembler_sound (layouts : List Layout) :
    ∀ store, storeInv store →
      ∃ s, convertToBlocksAux store layouts = Except.ok s ∧ storeInv s ∧
        s.map Prod.fst = store.map Prod.fst ++ (nonCaptions layouts).map Layout.cls ∧
        s.map (fun e => blockRect e.2) =
          store.map (fun e => blockRect e.2) ++ (nonCaptions layouts).map Layout.rect ∧
        s.map (fun e => textPart e.2) =
          store.map (fun e => textPart e.2) ++ (nonCaptions layouts).map layoutTextPart := by
  induction layouts with
  | nil =>
    intro store hinv
    exact ⟨store, rfl, hinv, by simp [nonCaptions], by simp [nonCaptions], by simp [nonCaptions]⟩
  | cons l ls ih =>
    intro store hinv
    cases hcl : l.cls
    case TITLE =>
      obtain ⟨s, h1, h2, h3, h4, h5⟩ :=
        ih (store ++ [(LayoutClass.TITLE,
          Block.text ⟨l.rect, TextKind.TITLE, convertToText l.fragments, false, false⟩)])
          (storeInv_append_one hinv (entryInv_textClass (Or.inl rfl)))
      refine ⟨s, ?_, h2, ?_, ?_, ?_⟩
      · rw [show convertToBlocksAux store (l :: ls) =
          match stepLayout store l with
          | Except.error e => Except.error e
          | Except.ok s2 => convertToBlocksAux s2 ls from rfl]
        simp [stepLayout, hcl, h1]
      · rw [h3]; simp [nonCaptions, List.filter_cons, isCaption, hcl]
      · rw [h4]; simp [nonCaptions, List.filter_cons, isCaption, hcl, blockRect]
      · rw [h5]; simp [nonCaptions, List.filter_cons, isCaption, hcl, textPart, layoutTextPart]
    case PLAIN_TEXT =>
      obtain ⟨s, h1, h2, h3, h4, h5⟩ :=
        ih (store ++ [(LayoutClass.PLAIN_TEXT,
          Block.text ⟨l.rect, TextKind.PLAIN_TEXT, convertToText l.fragments, false, false⟩)])
          (storeInv_append_one hinv (entryInv_textClass (Or.inr (Or.inl rfl))))
      refine ⟨s, ?_, h2, ?_, ?_, ?_⟩
      · rw [show convertToBlocksAux store (l :: ls) =
          match stepLayout store l with
          | Except.error e => Except.error e
          | Except.ok s2 => convertToBlocksAux s2 ls from rfl]
        simp [stepLayout, hcl, h1]
      · rw [h3]; simp [nonCaptions, List.filter_cons, isCaption, hcl]
      · rw [h4]; simp [nonCaptions, List.filter_cons, isCaption, hcl, blockRect]
      · rw [h5]; simp [nonCaptions, List.filter_cons, isCaption, hcl, textPart, layoutTextPart]
    case ABANDON =>
      obtain ⟨s, h1, h2, h3, h4, h5⟩ :=
        ih (store ++ [(LayoutClass.ABANDON,
          Block.text ⟨l.rect, TextKind.ABANDON, convertToText l.fragments, false, false⟩)])
          (storeInv_append_one hinv (entryInv_textClass (Or.inr (Or.inr rfl))))
      refine ⟨s, ?_, h2, ?_, ?_, ?_⟩
      · rw [show convertToBlocksAux store (l :: ls) =
          match stepLayout store l with
          | Except.error e => Except.error e
          | Except.ok s2 => convertToBlocksAux s2 ls from rfl]
        simp [stepLayout, hcl, h1]
      · rw [h3]; simp [nonCaptions, List.filter_cons, isCaption, hcl]
      · rw [h4]; simp [nonCaptions, List.filter_cons, isCaption, hcl, blockRect]
      · rw [h5]; simp [nonCaptions, List.filter_cons, isCaption, hcl, textPart, layoutTextPart]
    case FIGURE =>
      obtain ⟨s, h1, h2, h3, h4, h5⟩ :=
        ih (store ++ [(LayoutClass.FIGURE, Block.asset ⟨l.rect, clip l, []⟩)])
          (storeInv_append_one hinv (entryInv_asset _ _))
      refine ⟨s, ?_, h2, ?_, ?_, ?_⟩
      · rw [show convertToBlocksAux store (l :: ls) =
          match stepLayout store l with
          | Except.error e => Except.error e
          | Except.ok s2 => convertToBlocksAux s2 ls from rfl]
        simp [stepLayout, hcl, h1]
      · rw [h3]; simp [nonCaptions, List.filter_cons, isCaption, hcl]
      · rw [h4]; simp [nonCaptions, List.filter_cons, isCaption, hcl, blockRect]
      · rw [h5]; simp [nonCaptions, List.filter_cons, isCaption, hcl, textPart, layoutTextPart]
    case TABLE =>
      obtain ⟨s, h1, h2, h3, h4, h5⟩ :=
        ih (store ++ [(LayoutClass.TABLE, Block.asset ⟨l.rect, clip l, []⟩)])
          (storeInv_append_one hinv (entryInv_asset _ _))
      refine ⟨s, ?_, h2, ?_, ?_, ?_⟩
      · rw [show convertToBlocksAux store (l :: ls) =
          match stepLayout store l with
          | Except.error e => Except.error e
          | Except.ok s2 => convertToBlocksAux s2 ls from rfl]
        simp [stepLayout, hcl, h1]
      · rw [h3]; simp [nonCaptions, List.filter_cons, isCaption, hcl]
      · rw [h4]; simp [nonCaptions, List.filter_cons, isCaption, hcl, blockRect]
      · rw [h5]; simp [nonCaptions, List.filter_cons, isCaption, hcl, textPart, layoutTextPart]
    case ISOLATE_FORMULA =>
      obtain ⟨s, h1, h2, h3, h4, h5⟩ :=
        ih (store ++ [(LayoutClass.ISOLATE_FORMULA, Block.asset ⟨l.rect, clip l, []⟩)])
          (storeInv_append_one hinv (entryInv_asset _ _))
      refine ⟨s, ?_, h2, ?_, ?_, ?_⟩
      · rw [show convertToBlocksAux store (l :: ls) =
          match stepLayout store l with
          | Except.error e => Except.error e
          | Except.ok s2 => convertToBlocksAux s2 ls from rfl]
        simp [stepLayout, hcl, h1]
      · rw [h3]; simp [nonCaptions, List.filter_cons, isCaption, hcl]
      · rw [h4]; simp [nonCaptions, List.filter_cons, isCaption, hcl, blockRect]
      · rw [h5]; simp [nonCaptions, List.filter_cons, isCaption, hcl, textPart, layoutTextPart]
    case FIGURE_CAPTION =>
      obtain ⟨s2, hs2, m1, m2, m3, hinv2⟩ :=
        mergeCaption_ok LayoutClass.FIGURE (convertToText l.fragments) store hinv (Or.inl rfl)
      obtain ⟨s, h1, h2, h3, h4, h5⟩ := ih s2 hinv2
      refine ⟨s, ?_, h2, ?_, ?_, ?_⟩
      · rw [show convertToBlocksAux store (l :: ls) =
          match stepLayout store l with
          | Except.error e => Except.error e
          | Except.ok s3 => convertToBlocksAux s3 ls from rfl]
        simp [stepLayout, hcl, hs2, h1]
      · rw [h3, m1]; simp [nonCaptions, List.filter_cons, isCaption, hcl]
      · rw [h4, m2]; simp [nonCaptions, List.filter_cons, isCaption, hcl]
      · rw [h5, m3]; simp [nonCaptions, List.filter_cons, isCaption, hcl]
    case TABLE_CAPTION =>
      obtain ⟨s2, hs2, m1, m2, m3, hinv2⟩ :=
        mergeCaption_ok LayoutClass.TABLE (convertToText l.fragments) store hinv (Or.inr (Or.inl rfl))
      obtain ⟨s, h1, h2, h3, h4, h5⟩ := ih s2 hinv2
      refine ⟨s, ?_, h2, ?_, ?_, ?_⟩
      · rw [show convertToBlocksAux store (l :: ls) =
          match stepLayout store l with
          | Except.error e => Except.error e
          | Except.ok s3 => convertToBlocksAux s3 ls from rfl]
        simp [stepLayout, hcl, hs2, h1]
      · rw [h3, m1]; simp [nonCaptions, List.filter_cons, isCaption, hcl]
      · rw [h4, m2]; simp [nonCaptions, List.filter_cons, isCaption, hcl]
      · rw [h5, m3]; simp [nonCaptions, List.filter_cons, isCaption, hcl]
    case TABLE_FOOTNOTE =>
      obtain ⟨s2, hs2, m1, m2, m3, hinv2⟩ :=
        mergeCaption_ok LayoutClass.TABLE (convertToText l.fragments) store hinv (Or.inr (Or.inl rfl))
      obtain ⟨s, h1, h2, h3, h4, h5⟩ := ih s2 hinv2
      refine ⟨s, ?_, h2, ?_, ?_, ?_⟩
      · rw [show convertToBlocksAux store (l :: ls) =
          match stepLayout store l with
          | Except.error e => Except.error e
          | Except.ok s3 => convertToBlocksAux s3 ls from rfl]
        simp [stepLayout, hcl, hs2, h1]
      · rw [h3, m1]; simp [nonCaptions, List.filter_cons, isCaption, hcl]
      · rw [h4, m2]; simp [nonCaptions, List.filter_cons, isCaption, hcl]
      · rw [h5, m3]; simp [nonCaptions, List.filter_cons, isCaption, hcl]
    case FORMULA_CAPTION =>
      obtain ⟨s2, hs2, m1, m2, m3, hinv2⟩ :=
        mergeCaption_ok LayoutClass.ISOLATE_FORMULA (convertToText l.fragments) store hinv
          (Or.inr (Or.inr rfl))
      obtain ⟨s, h1, h2, h3, h4, h5⟩ := ih s2 hinv2
      refine ⟨s, ?_, h2, ?_, ?_, ?_⟩
      · rw [show convertToBlocksAux store (l :: ls) =
          match stepLayout store l with
          | Except.error e => Except.error e
          | Except.ok s3 => convertToBlocksAux s3 ls from rfl]
        simp [stepLayout, hcl, hs2, h1]
      · rw [h3, m1]; simp [nonCaptions, List.filter_cons, isCaption, hcl]
      · rw [h4, m2]; simp [nonCaptions, List.filter_cons, isCaption, hcl]
      · rw [h5, m3]; simp [nonCaptions, List.filter_cons, isCaption, hcl]

end AssemblerLemmas

section SearchLemmas

lemma mergeCaptionRev_of_search_none {cls : LayoutClass} {ts : List Text}
    {rev : List (LayoutClass × Block)} (h : previousBlockAux cls rev = none) :
    mergeCaptionRev cls ts rev = Except.ok rev := by
  induction rev with
  | nil => rfl
  | cons e rest ih =>
    obtain ⟨c, b⟩ := e
    by_cases hc : cls = c
    · simp [previousBlockAux, hc] at h
    · by_cases hab : cls = LayoutClass.ABANDON
      · subst hab
        have hrest : previousBlockAux LayoutClass.ABANDON rest = none := by
          simpa [previousBlockAux, hc] using h
        simp only [mergeCaptionRev, hc, ih hrest, ite_false, if_neg]
        simp [hc]
        rfl
      · simp [mergeCaptionRev, hc, hab]

lemma mergeCaptionRev_of_search_text {cls : LayoutClass} {ts : List Text}
    {rev : List (LayoutClass × Block)} {b : Block}
    (h : previousBlockAux cls rev = some b) (hb : ∀ a, b ≠ Block.asset a) :
    mergeCaptionRev cls ts rev = Except.error PageError.assertionError := by
  induction rev with
  | nil => simp [previousBlockAux] at h
  | cons e rest ih =>
    obtain ⟨c, blk⟩ := e
    by_cases hc : cls = c
    · have hbl : blk = b := by simpa [previousBlockAux, hc] using h
      subst hbl
      cases blk with
      | asset a => exact absurd rfl (hb a)
      | text tb => simp [mergeCaptionRev, hc]
    · by_cases hab : cls = LayoutClass.ABANDON
      · subst hab
        have hrest : previousBlockAux LayoutClass.ABANDON rest = some b := by
          simpa [previousBlockAux, hc] using h
        simp only [mergeCaptionRev, hc, ih hrest, ite_false, if_neg]
        simp [hc]
        rfl
      · simp [previousBlockAux, hc, hab] at h

end SearchLemmas

section ClassifierLemmas

lemma layoutTextPart_cases {l : Layout} {tb : TextBlock} (h : layoutTextPart l = some tb) :
    (l.cls = LayoutClass.TITLE ∧
      tb = ⟨l.rect, TextKind.TITLE, convertToText l.fragments, false, false⟩) ∨
    (l.cls = LayoutClass.PLAIN_TEXT ∧
      tb = ⟨l.rect, TextKind.PLAIN_TEXT, convertToText l.fragments, false, false⟩) ∨
    (l.cls = LayoutClass.ABANDON ∧
      tb = ⟨l.rect, TextKind.ABANDON, convertToText l.fragments, false, false⟩) := by
  cases hc : l.cls <;> simp [layoutTextPart, hc] at h <;> simp [h.symm]

lemma textPart_eq_some {b : Block} {tb : TextBlock} (h : textPart b = some tb) :
    b = Block.text tb := by
  cases b with
  | text tb2 => simpa [textPart] using congrArg (Option.getD · tb) h
  | asset _ => simp [textPart] at h

/-- The assembled block list's per-block text payloads and rectangles,
extracted from `assembler_sound` at the empty store. -/
lemma assembled_maps {layouts : List Layout} {blocks : List Block}
    (h : convertToBlocks layouts = Except.ok blocks) :
    blocks.map textPart = (nonCaptions layouts).map layoutTextPart ∧
    blocks.map blockRect = (nonCaptions layouts).map Layout.rect := by
  obtain ⟨s, h1, _, _, h4, h5⟩ := assembler_sound layouts [] storeInv_nil
  have hb : blocks = s.map Prod.snd := by
    have : convertToBlocks layouts = Except.ok (s.map Prod.snd) := by
      simp only [convertToBlocks, h1]
      rfl
    rw [h] at this
    exact (Except.ok.injEq _ _).mp this
  subst hb
  constructor
  · rw [List.map_map]
    simpa using h5
  · rw [List.map_map]
    simpa using h4

lemma classifyBlock_text_eq {pr : ℚ × ℚ × ℚ} {tb : TextBlock} {firstText lastText : Text}
    (hk : ¬ tb.kind = TextKind.ABANDON)
    (hf : tb.texts.head? = some firstText) (hl : tb.texts.getLast? = some lastText) :
    classifyBlock pr (Block.text tb) = some (Block.text { tb with
      has_paragraph_indentation :=
        decide (leftMid firstText -
          (if tb.texts.length = 1 then pr else textsRange [Block.text tb]).2.1 >
          (if tb.texts.length = 1 then pr else textsRange [Block.text tb]).1),
      last_line_touch_end :=
        decide ((if tb.texts.length = 1 then pr else textsRange [Block.text tb]).2.2 -
          rightMid lastText <
          (if tb.texts.length = 1 then pr else textsRange [Block.text tb]).1) }) := by
  simp [classifyBlock, hk, hf, hl]

lemma classifyBlocks_get {pr : ℚ × ℚ × ℚ} {bs out : List Block}
    (h : classifyBlocks pr bs = some out) :
    out.length = bs.length ∧
    ∀ i (hi : i < bs.length) (ho : i < out.length),
      classifyBlock pr (bs.get ⟨i, hi⟩) = some (out.get ⟨i, ho⟩) := by
  induction bs generalizing out with
  | nil =>
    have : out = [] := by simpa [classifyBlocks] using h.symm
    subst this
    exact ⟨rfl, fun i hi => absurd hi (Nat.not_lt_zero i)⟩
  | cons b bs ih =>
    cases hb : classifyBlock pr b with
    | none => simp [classifyBlocks, hb] at h
    | some b2 =>
      cases hbs : classifyBlocks pr bs with
      | none => simp [classifyBlocks, hb, hbs] at h
      | some bs2 =>
        have : out = b2 :: bs2 := by
          have := h
          simp [classifyBlocks, hb, hbs] at this
          exact this.symm
        subst this
        obtain ⟨hlen, hget⟩ := ih hbs
        refine ⟨by simp [hlen], ?_⟩
        intro i hi ho
        cases i with
        | zero => simpa using hb
        | succ j =>
          have hj : j < bs.length := by simpa using hi
          have hjo : j < bs2.length := by simpa using ho
          simpa using hget j hj hjo

lemma classifyBlocks_isSome_iff (pr : ℚ × ℚ × ℚ) (bs : List Block) :
    (classifyBlocks pr bs).isSome = true ↔
      ∀ b ∈ bs, (classifyBlock pr b).isSome = true := by
  induction bs with
  | nil => simp [classifyBlocks]
  | cons b bs ih =>
    cases hb : classifyBlock pr b with
    | none => simp [classifyBlocks, hb]
    | some b2 =>
      cases hbs : classifyBlocks pr bs with
      | none =>
        rw [hbs] at ih
        simp only [classifyBlocks, hb, hbs]
        simp only [Option.isSome_none, Bool.false_eq_true, false_iff, not_forall] at ih ⊢
        obtain ⟨b3, hm, hb3⟩ := ih
        exact ⟨b3, List.mem_cons_of_mem _ hm, hb3⟩
      | some bs2 =>
        rw [hbs] at ih
        simp only [classifyBlocks, hb, hbs]
        simp only [Option.isSome_some, true_iff] at ih
        simp only [Option.isSome_some, true_iff]
        intro b3 hm
        rcases List.mem_cons.mp hm with rfl | hm2
        · simp [hb]
        · exact ih b3 hm2

lemma classifyBlock_isSome_iff (pr : ℚ × ℚ × ℚ) (b : Block) :
    (classifyBlock pr b).isSome = true ↔
      ∀ tb, b = Block.text tb → ¬ tb.kind = TextKind.ABANDON → tb.texts ≠ [] := by
  cases b with
  | asset a => simp [classifyBlock]
  | text tb =>
    by_cases hk : tb.kind = TextKind.ABANDON
    · simp [classifyBlock, hk]
    · cases ht : tb.texts with
      | nil =>
        simp only [classifyBlock, hk, ht]
        simp [hk, ht]
      | cons t ts =>
        have hf : tb.texts.head? = some t := by rw [ht]; rfl
        have hl : ∃ y, tb.texts.getLast? = some y := by
          rw [ht, ← Option.isSome_iff_exists, List.getLast?_isSome]
          simp
        obtain ⟨y, hy⟩ := hl
        rw [classifyBlock_text_eq hk hf hy]
        simp [ht]

lemma mem_qualifyingTexts {t : Text} {tb : TextBlock} {blocks : List Block}
    (hmem : Block.text tb ∈ blocks) (hk : ¬ tb.kind = TextKind.ABANDON)
    (ht : t ∈ tb.texts) : t ∈ qualifyingTexts blocks := by
  unfold qualifyingTexts
  refine List.mem_flatten.mpr ⟨tb.texts, ?_, ht⟩
  have := List.mem_map_of_mem blockTexts hmem
  simpa [blockTexts, hk] using this

end ClassifierLemmas

/-- C1: the claim says the backward caption search skips ABANDON entries and
attaches the caption to the preceding matching asset.  The code instead
tests the target class against ABANDON (`cls != LayoutClass.ABANDON`), a
condition that never holds at a call site, so the scan aborts at the first
(most recent) entry: on the region list FIGURE, ABANDON, FIGURE_CAPTION the
search returns no match and the caption's fragment is dropped — the
assembled figure asset keeps empty `texts`. -/
theorem c1_abandon_not_transparent :
    previousBlock LayoutClass.FIGURE
      [(LayoutClass.FIGURE, Block.asset figAsset), (LayoutClass.ABANDON, Block.text abTB)] =
        none ∧
    convertToBlocks [figL, abL, capL] =
      Except.ok [Block.asset figAsset, Block.text abTB] ∧
    figAsset.texts = [] ∧ capL.fragments = [fragCap] := by
  refine ⟨by decide, by rfl, rfl, rfl⟩

/-- C3: the Geometry Analyzer returns the triple (mean of the rectangle
heights, minimum corner x, maximum corner x) aggregated over exactly the
Texts of non-ABANDON TextBlocks, and `(0, 0, 0)` when none qualify: the
imperative fold of `_texts_range` equals the spec-worded aggregate
`geometrySpec` on every block list. -/
theorem c3_geometry_analyzer_contract (blocks : List Block) :
    textsRange blocks = geometrySpec blocks :=
  textsRange_eq_spec blocks

/-- C6: the assembler's output has exactly one block per non-caption region,
in input order, carrying that region's class and rectangle; caption regions
never add an output entry. -/
theorem c6_output_order (layouts : List Layout) :
    ∃ s, convertToBlocksAux [] layouts = Except.ok s ∧
      convertToBlocks layouts = Except.ok (s.map Prod.snd) ∧
      s.map Prod.fst = (nonCaptions layouts).map Layout.cls ∧
      s.map (fun e => blockRect e.2) = (nonCaptions layouts).map Layout.rect := by
  obtain ⟨s, h1, _, h3, h4, _⟩ := assembler_sound layouts [] storeInv_nil
  refine ⟨s, h1, ?_, by simpa using h3, by simpa using h4⟩
  simp only [convertToBlocks, h1]
  rfl

/-- C7: a caption region whose backward search finds no eligible preceding
asset block is dropped silently: the step raises no error and returns the
store unchanged. -/
theorem c7_unmatched_caption_dropped (store : List (LayoutClass × Block)) (layout : Layout)
    (target : LayoutClass) (hc : captionTarget layout.cls = some target)
    (hn : previousBlock target store = none) :
    stepLayout store layout = Except.ok store := by
  have key : mergeCaption target (convertToText layout.fragments) store = Except.ok store := by
    unfold previousBlock at hn
    unfold mergeCaption
    rw [mergeCaptionRev_of_search_none hn]
    show Except.ok store.reverse.reverse = Except.ok store
    rw [List.reverse_reverse]
  cases hcl : layout.cls <;> rw [hcl] at hc <;> simp [captionTarget] at hc <;>
    subst hc <;> simpa [stepLayout, hcl] using key

/-- C7 witness: a FIGURE_CAPTION over a store holding only a TABLE asset is
dropped with the store unchanged. -/
theorem c7_witness :
    captionTarget capL.cls = some LayoutClass.FIGURE ∧
    previousBlock LayoutClass.FIGURE storeTable = none ∧
    stepLayout storeTable capL = Except.ok storeTable :=
  ⟨rfl, by decide,
   c7_unmatched_caption_dropped storeTable capL LayoutClass.FIGURE rfl (by decide)⟩

/-- C8: when the backward search resolves to a block that is not an
`AssetBlock`, the assembler fails fast with the assertion error instead of
mutating anything; and under the assembler's own construction (from the
empty store) this failure is unreachable: the assembler succeeds on every
input region list. -/
theorem c8_caption_assert :
    (∀ layouts, ∃ blocks, convertToBlocks layouts = Except.ok blocks) ∧
    (∀ (store : List (LayoutClass × Block)) (layout : Layout)
      (target : LayoutClass) (b : Block),
      captionTarget layout.cls = some target →
      previousBlock target store = some b →
      (∀ a, b ≠ Block.asset a) →
      stepLayout store layout = Except.error PageError.assertionError) := by
  constructor
  · intro layouts
    obtain ⟨s, h1, _, _, _, _⟩ := assembler_sound layouts [] storeInv_nil
    refine ⟨s.map Prod.snd, ?_⟩
    simp only [convertToBlocks, h1]
    rfl
  · intro store layout target b hc hp hb
    have key : mergeCaption target (convertToText layout.fragments) store =
        Except.error PageError.assertionError := by
      unfold previousBlock at hp
      unfold mergeCaption
      rw [mergeCaptionRev_of_search_text hp hb]
      rfl
    cases hcl : layout.cls <;> rw [hcl] at hc <;> simp [captionTarget] at hc <;>
      subst hc <;> simpa [stepLayout, hcl] using key

/-- C2 counterexample: the claim says a mean line height of 0 forces both
flags false.  On a one-block page whose two lines all have height 0, the
applicable (local) mean line height is 0 and yet the first line's left
midpoint (x = 5) exceeds the local minimum x (0), so
`has_paragraph_indentation` is set true. -/
theorem c2_counterexample :
    cexBlock.texts.length = 2 ∧
    (textsRange [Block.text cexBlock]).1 = 0 ∧
    classifyPage [Block.text cexBlock] = some [Block.text cexBlockOut] ∧
    cexBlockOut.has_paragraph_indentation = true := by
  refine ⟨rfl, ?_, ?_, rfl⟩
  · simp [textsRange, accBlock, accText, accCorner, cexBlock, tFirst, tSecond,
      Rectangle.corners, Rectangle.height, rOf, pt, optMin, optMax] <;> norm_num
  · simp [classifyPage, classifyBlocks, classifyBlock, textsRange, accBlock, accText,
      accCorner, cexBlock, cexBlockOut, tFirst, tSecond, Rectangle.corners,
      Rectangle.height, rOf, pt, optMin, optMax, leftMid, rightMid] <;> norm_num

/-- C2 (amended): for every classified non-ABANDON text block whose
applicable mean line height is 0, `last_line_touch_end` is set false (the
right-edge delta is never negative, since the applicable statistics cover
the block's own lines), while `has_paragraph_indentation` is set true
exactly when the first line's left-edge midpoint strictly exceeds the
applicable minimum x — which is possible when another aggregated line
reaches further left. -/
theorem c2_zero_mean_flags (blocks out : List Block) (i : ℕ)
    (hi : i < blocks.length) (ho : i < out.length) (tb : TextBlock)
    (hb : blocks.get ⟨i, hi⟩ = Block.text tb) (hk : ¬ tb.kind = TextKind.ABANDON)
    (firstText lastText : Text) (hf : tb.texts.head? = some firstText)
    (hl : tb.texts.getLast? = some lastText)
    (hcp : classifyPage blocks = some out)
    (hm : (if tb.texts.length = 1 then textsRange blocks
      else textsRange [Block.text tb]).1 = 0) :
    out.get ⟨i, ho⟩ = Block.text { tb with
      has_paragraph_indentation :=
        decide ((if tb.texts.length = 1 then textsRange blocks
          else textsRange [Block.text tb]).2.1 < leftMid firstText),
      last_line_touch_end := false } := by
  unfold classifyPage at hcp
  obtain ⟨hlen, hget⟩ := classifyBlocks_get hcp
  have hcb := hget i hi ho
  rw [hb, classifyBlock_text_eq hk hf hl] at hcb
  have hout := (Option.some.inj hcb).symm
  have hlmem : lastText ∈ tb.texts := List.mem_of_getLast?_eq_some hl
  have hbound : rightMid lastText ≤
      (if tb.texts.length = 1 then textsRange blocks
        else textsRange [Block.text tb]).2.2 := by
    by_cases h1 : tb.texts.length = 1
    · have hmem : Block.text tb ∈ blocks := hb ▸ List.get_mem blocks i hi
      obtain ⟨b1, b2⟩ := textsRange_right_bound (mem_qualifyingTexts hmem hk hlmem)
      rw [if_pos h1]
      unfold rightMid
      linarith
    · have hmem : Block.text tb ∈ [Block.text tb] := List.mem_singleton.mpr rfl
      obtain ⟨b1, b2⟩ := textsRange_right_bound (mem_qualifyingTexts hmem hk hlmem)
      rw [if_neg h1]
      unfold rightMid
      linarith
  have e1 : decide (leftMid firstText -
      (if tb.texts.length = 1 then textsRange blocks
        else textsRange [Block.text tb]).2.1 >
      (if tb.texts.length = 1 then textsRange blocks
        else textsRange [Block.text tb]).1) =
      decide ((if tb.texts.length = 1 then textsRange blocks
        else textsRange [Block.text tb]).2.1 < leftMid firstText) := by
    rw [decide_eq_decide, hm]
    constructor
    · intro h
      linarith
    · intro h
      linarith
  have e2 : decide ((if tb.texts.length = 1 then textsRange blocks
      else textsRange [Block.text tb]).2.2 - rightMid lastText <
      (if tb.texts.length = 1 then textsRange blocks
        else textsRange [Block.text tb]).1) = false := by
    rw [hm]
    exact decide_eq_false (by linarith)
  rw [hout, e1, e2]

/-- C2 witness: the amended claim applied to the zero-height page, where the
indentation condition is met. -/
theorem c2_witness :
    (if cexBlock.texts.length = 1 then textsRange [Block.text cexBlock]
      else textsRange [Block.text cexBlock]).1 = 0 ∧
    [Block.text cexBlockOut].get ⟨0, by decide⟩ = Block.text { cexBlock with
      has_paragraph_indentation :=
        decide ((if cexBlock.texts.length = 1 then textsRange [Block.text cexBlock]
          else textsRange [Block.text cexBlock]).2.1 < leftMid tFirst),
      last_line_touch_end := false } := by
  have hcp : classifyPage [Block.text cexBlock] = some [Block.text cexBlockOut] := by
    simp [classifyPage, classifyBlocks, classifyBlock, textsRange, accBlock, accText,
      accCorner, cexBlock, cexBlockOut, tFirst, tSecond, Rectangle.corners,
      Rectangle.height, rOf, pt, optMin, optMax, leftMid, rightMid] <;> norm_num
  have hm : (if cexBlock.texts.length = 1 then textsRange [Block.text cexBlock]
      else textsRange [Block.text cexBlock]).1 = 0 := by
    simp [textsRange, accBlock, accText, accCorner, cexBlock, tFirst, tSecond,
      Rectangle.corners, Rectangle.height, rOf, pt, optMin, optMax] <;> norm_num
  exact ⟨hm, c2_zero_mean_flags [Block.text cexBlock] [Block.text cexBlockOut] 0 (by decide)
    (by decide) cexBlock rfl (by decide) tFirst tSecond rfl rfl hcp hm⟩

/-- C4: a single-line non-ABANDON text block is classified against the
page-wide statistics, a multi-line one against statistics recomputed from
that block alone. -/
theorem c4_baseline_selection (blocks out : List Block) (i : ℕ)
    (hi : i < blocks.length) (ho : i < out.length) (tb : TextBlock)
    (hb : blocks.get ⟨i, hi⟩ = Block.text tb) (hk : ¬ tb.kind = TextKind.ABANDON)
    (firstText lastText : Text) (hf : tb.texts.head? = some firstText)
    (hl : tb.texts.getLast? = some lastText)
    (hcp : classifyPage blocks = some out) :
    (tb.texts.length = 1 → out.get ⟨i, ho⟩ = Block.text { tb with
      has_paragraph_indentation :=
        decide (leftMid firstText - (textsRange blocks).2.1 > (textsRange blocks).1),
      last_line_touch_end :=
        decide ((textsRange blocks).2.2 - rightMid lastText < (textsRange blocks).1) }) ∧
    (2 ≤ tb.texts.length → out.get ⟨i, ho⟩ = Block.text { tb with
      has_paragraph_indentation :=
        decide (leftMid firstText - (textsRange [Block.text tb]).2.1 >
          (textsRange [Block.text tb]).1),
      last_line_touch_end :=
        decide ((textsRange [Block.text tb]).2.2 - rightMid lastText <
          (textsRange [Block.text tb]).1) }) := by
  unfold classifyPage at hcp
  obtain ⟨hlen, hget⟩ := classifyBlocks_get hcp
  have hcb := hget i hi ho
  rw [hb, classifyBlock_text_eq hk hf hl] at hcb
  have hout := (Option.some.inj hcb).symm
  constructor
  · intro h1
    rw [hout, if_pos h1]
  · intro h2
    have h1 : ¬ tb.texts.length = 1 := by omega
    rw [hout, if_neg h1]

/-- C4 witness: on the sample page the single-line block is classified with
the page-wide baseline `(1, 0, 9)` rather than its own. -/
theorem c4_witness :
    classifyPage samplePage = some samplePageOut ∧
    (oneLineTB.texts.length = 1 → samplePageOut.get ⟨0, by decide⟩ =
      Block.text { oneLineTB with
        has_paragraph_indentation :=
          decide (leftMid ⟨"s", 1, rOf 4 0 9 1⟩ - (textsRange samplePage).2.1 >
            (textsRange samplePage).1),
        last_line_touch_end :=
          decide ((textsRange samplePage).2.2 - rightMid ⟨"s", 1, rOf 4 0 9 1⟩ <
            (textsRange samplePage).1) }) := by
  have hcp : classifyPage samplePage = some samplePageOut := by
    simp [classifyPage, classifyBlocks, classifyBlock, textsRange, accBlock, accText,
      accCorner, samplePage, samplePageOut, oneLineTB, twoLineTB, oneLineOutTB,
      Rectangle.corners, Rectangle.height, rOf, pt, optMin, optMax, leftMid,
      rightMid] <;> norm_num
  exact ⟨hcp,
    (c4_baseline_selection samplePage samplePageOut 0 (by decide) (by decide) oneLineTB rfl
      (by decide) ⟨"s", 1, rOf 4 0 9 1⟩ ⟨"s", 1, rOf 4 0 9 1⟩ rfl rfl hcp).1⟩

/-- C5: both shape comparisons are strict: the indentation flag is true iff
the first line's left-midpoint delta strictly exceeds the applicable mean
line height, and the touch-end flag is true iff the right-edge delta is
strictly below it (equality gives false in both). -/
theorem c5_strict_comparisons (blocks out : List Block) (i : ℕ)
    (hi : i < blocks.length) (ho : i < out.length) (tb : TextBlock)
    (hb : blocks.get ⟨i, hi⟩ = Block.text tb) (hk : ¬ tb.kind = TextKind.ABANDON)
    (firstText lastText : Text) (hf : tb.texts.head? = some firstText)
    (hl : tb.texts.getLast? = some lastText)
    (hcp : classifyPage blocks = some out) :
    ∃ tb2, out.get ⟨i, ho⟩ = Block.text tb2 ∧
      (tb2.has_paragraph_indentation = true ↔
        leftMid firstText -
          (if tb.texts.length = 1 then textsRange blocks
            else textsRange [Block.text tb]).2.1 >
          (if tb.texts.length = 1 then textsRange blocks
            else textsRange [Block.text tb]).1) ∧
      (tb2.last_line_touch_end = true ↔
        (if tb.texts.length = 1 then textsRange blocks
          else textsRange [Block.text tb]).2.2 - rightMid lastText <
        (if tb.texts.length = 1 then textsRange blocks
          else textsRange [Block.text tb]).1) := by
  unfold classifyPage at hcp
  obtain ⟨hlen, hget⟩ := classifyBlocks_get hcp
  have hcb := hget i hi ho
  rw [hb, classifyBlock_text_eq hk hf hl] at hcb
  have hout := (Option.some.inj hcb).symm
  exact ⟨_, hout, decide_eq_true_iff, decide_eq_true_iff⟩

/-- C5 witness: the two-line block of the sample page, against its own
statistics `(1, 0, 9)`: neither strict comparison holds, both flags are
false. -/
theorem c5_witness :
    classifyPage samplePage = some samplePageOut ∧
    ∃ tb2, samplePageOut.get ⟨1, by decide⟩ = Block.text tb2 ∧
      (tb2.has_paragraph_indentation = true ↔
        leftMid ⟨"u", 1, rOf 0 2 9 3⟩ -
          (if twoLineTB.texts.length = 1 then textsRange samplePage
            else textsRange [Block.text twoLineTB]).2.1 >
          (if twoLineTB.texts.length = 1 then textsRange samplePage
            else textsRange [Block.text twoLineTB]).1) ∧
      (tb2.last_line_touch_end = true ↔
        (if twoLineTB.texts.length = 1 then textsRange samplePage
          else textsRange [Block.text twoLineTB]).2.2 - rightMid ⟨"v", 1, rOf 0 4 6 5⟩ <
        (if twoLineTB.texts.length = 1 then textsRange samplePage
          else textsRange [Block.text twoLineTB]).1) := by
  have hcp : classifyPage samplePage = some samplePageOut := by
    simp [classifyPage, classifyBlocks, classifyBlock, textsRange, accBlock, accText,
      accCorner, samplePage, samplePageOut, oneLineTB, twoLineTB, oneLineOutTB,
      Rectangle.corners, Rectangle.height, rOf, pt, optMin, optMax, leftMid,
      rightMid] <;> norm_num
  exact ⟨hcp,
    c5_strict_comparisons samplePage samplePageOut 1 (by decide) (by decide) twoLineTB rfl
      (by decide) ⟨"u", 1, rOf 0 2 9 3⟩ ⟨"v", 1, rOf 0 4 6 5⟩ rfl rfl hcp⟩

/-- C9: classification only touches the two boolean flags of non-ABANDON
text blocks: assembled text blocks start with both flags false, asset
blocks and ABANDON text blocks pass through unchanged, and every block
keeps its rect, kind, texts and image. -/
theorem c9_classification_frame (layouts : List Layout) (blocks out : List Block)
    (h1 : convertToBlocks layouts = Except.ok blocks)
    (h2 : classifyPage blocks = some out) :
    out.length = blocks.length ∧
    ∀ i (hi : i < blocks.length) (ho : i < out.length),
      (∀ ab, blocks.get ⟨i, hi⟩ = Block.asset ab → out.get ⟨i, ho⟩ = Block.asset ab) ∧
      (∀ tb, blocks.get ⟨i, hi⟩ = Block.text tb →
        tb.has_paragraph_indentation = false ∧ tb.last_line_touch_end = false ∧
        ∃ tb2, out.get ⟨i, ho⟩ = Block.text tb2 ∧
          tb2.rect = tb.rect ∧ tb2.kind = tb.kind ∧ tb2.texts = tb.texts) ∧
      (∀ tb, blocks.get ⟨i, hi⟩ = Block.text tb → tb.kind = TextKind.ABANDON →
        out.get ⟨i, ho⟩ = Block.text tb) := by
  have hflags : ∀ tb, Block.text tb ∈ blocks →
      tb.has_paragraph_indentation = false ∧ tb.last_line_touch_end = false := by
    intro tb hm
    obtain ⟨hmap, _⟩ := assembled_maps h1
    have hmm : textPart (Block.text tb) ∈ blocks.map textPart := List.mem_map_of_mem _ hm
    rw [hmap] at hmm
    obtain ⟨l, _, hl⟩ := List.mem_map.mp hmm
    have hl2 : layoutTextPart l = some tb := hl
    rcases layoutTextPart_cases hl2 with ⟨_, htb⟩ | ⟨_, htb⟩ | ⟨_, htb⟩ <;> rw [htb] <;>
      exact ⟨rfl, rfl⟩
  unfold classifyPage at h2
  obtain ⟨hlen, hget⟩ := classifyBlocks_get h2
  refine ⟨hlen, ?_⟩
  intro i hi ho
  have hcb := hget i hi ho
  refine ⟨?_, ?_, ?_⟩
  · intro ab he
    rw [he] at hcb
    have h3 : some (Block.asset ab) = some (out.get ⟨i, ho⟩) := by
      simpa [classifyBlock] using hcb
    exact (Option.some.inj h3).symm
  · intro tb he
    have hmem : Block.text tb ∈ blocks := he ▸ List.get_mem blocks i hi
    obtain ⟨hf1, hf2⟩ := hflags tb hmem
    rw [he] at hcb
    refine ⟨hf1, hf2, ?_⟩
    by_cases hk : tb.kind = TextKind.ABANDON
    · have h3 : some (Block.text tb) = some (out.get ⟨i, ho⟩) := by
        simpa [classifyBlock, hk] using hcb
      exact ⟨tb, (Option.some.inj h3).symm, rfl, rfl, rfl⟩
    · cases ht : tb.texts with
      | nil =>
        exfalso
        simp [classifyBlock, hk, ht] at hcb
      | cons t ts =>
        have hf : tb.texts.head? = some t := by rw [ht]; rfl
        have hex : ∃ y, tb.texts.getLast? = some y := by
          rw [ht, ← Option.isSome_iff_exists, List.getLast?_isSome]
          simp
        obtain ⟨y, hy⟩ := hex
        rw [classifyBlock_text_eq hk hf hy] at hcb
        exact ⟨_, (Option.some.inj hcb).symm, rfl, rfl, ht⟩
  · intro tb he hk
    rw [he] at hcb
    have h3 : some (Block.text tb) = some (out.get ⟨i, ho⟩) := by
      simpa [classifyBlock, hk] using hcb
    exact (Option.some.inj h3).symm

/-- C9 witness: the frame property applied to a one-title page. -/
theorem c9_witness :
    convertToBlocks [titleL] = Except.ok [Block.text titleTB] ∧
    classifyPage [Block.text titleTB] = some [Block.text titleOutTB] ∧
    ([Block.text titleOutTB].length = [Block.text titleTB].length ∧
    ∀ i (hi : i < [Block.text titleTB].length) (ho : i < [Block.text titleOutTB].length),
      (∀ ab, [Block.text titleTB].get ⟨i, hi⟩ = Block.asset ab →
        [Block.text titleOutTB].get ⟨i, ho⟩ = Block.asset ab) ∧
      (∀ tb, [Block.text titleTB].get ⟨i, hi⟩ = Block.text tb →
        tb.has_paragraph_indentation = false ∧ tb.last_line_touch_end = false ∧
        ∃ tb2, [Block.text titleOutTB].get ⟨i, ho⟩ = Block.text tb2 ∧
          tb2.rect = tb.rect ∧ tb2.kind = tb.kind ∧ tb2.texts = tb.texts) ∧
      (∀ tb, [Block.text titleTB].get ⟨i, hi⟩ = Block.text tb →
        tb.kind = TextKind.ABANDON →
        [Block.text titleOutTB].get ⟨i, ho⟩ = Block.text tb)) := by
  have ha : convertToBlocks [titleL] = Except.ok [Block.text titleTB] := by rfl
  have hcp : classifyPage [Block.text titleTB] = some [Block.text titleOutTB] := by
    simp [classifyPage, classifyBlocks, classifyBlock, textsRange, accBlock, accText,
      accCorner, titleTB, titleOutTB, titleText, Rectangle.corners, Rectangle.height,
      rOf, pt, optMin, optMax, leftMid, rightMid] <;> norm_num
  exact ⟨ha, hcp, c9_classification_frame [titleL] _ _ ha hcp⟩

/-- C10: shape classification is total exactly when every TITLE or
PLAIN_TEXT region of the page carries at least one fragment; a single such
region with an empty fragment list makes the classifier's unguarded
`texts[0]` access fail (modelled as `none`) instead of yielding the block
with default-false flags. -/
theorem c10_empty_text_region_crashes (layouts : List Layout) (blocks : List Block)
    (h : convertToBlocks layouts = Except.ok blocks) :
    classifyPage blocks = none ↔
      ∃ l ∈ layouts, (l.cls = LayoutClass.TITLE ∨ l.cls = LayoutClass.PLAIN_TEXT) ∧
        l.fragments = [] := by
  obtain ⟨hmap, _⟩ := assembled_maps h
  unfold classifyPage
  rw [← Option.not_isSome_iff_eq_none, classifyBlocks_isSome_iff]
  constructor
  · intro hno
    push_neg at hno
    obtain ⟨b, hbmem, hb⟩ := hno
    have hb2 : ¬ ((classifyBlock (textsRange blocks) b).isSome = true) := hb
    rw [classifyBlock_isSome_iff] at hb2
    push_neg at hb2
    obtain ⟨tb, rfl, hk, htexts⟩ := hb2
    have hmm : textPart (Block.text tb) ∈ blocks.map textPart :=
      List.mem_map_of_mem _ hbmem
    rw [hmap] at hmm
    obtain ⟨l, hlmem, hl⟩ := List.mem_map.mp hmm
    have hl2 : layoutTextPart l = some tb := hl
    rcases layoutTextPart_cases hl2 with ⟨hcls, htb⟩ | ⟨hcls, htb⟩ | ⟨hcls, htb⟩
    · refine ⟨l, List.mem_of_mem_filter hlmem, Or.inl hcls, ?_⟩
      rw [htb] at htexts
      simpa [convertToText] using htexts
    · refine ⟨l, List.mem_of_mem_filter hlmem, Or.inr hcls, ?_⟩
      rw [htb] at htexts
      simpa [convertToText] using htexts
    · exfalso
      rw [htb] at hk
      exact hk rfl
  · rintro ⟨l, hlmem, hcls, hfrag⟩ hall
    rcases hcls with hcls | hcls
    · have hl2 : layoutTextPart l =
          some ⟨l.rect, TextKind.TITLE, convertToText l.fragments, false, false⟩ := by
        simp [layoutTextPart, hcls]
      have hlnc : l ∈ nonCaptions layouts := by
        simp [nonCaptions, List.mem_filter, hlmem, isCaption, hcls]
      have hmm : layoutTextPart l ∈ (nonCaptions layouts).map layoutTextPart :=
        List.mem_map_of_mem _ hlnc
      rw [← hmap] at hmm
      obtain ⟨b, hbmem, hbtp⟩ := List.mem_map.mp hmm
      have hbeq : b = Block.text ⟨l.rect, TextKind.TITLE, convertToText l.fragments,
          false, false⟩ := textPart_eq_some (by rw [hbtp, hl2])
      have hsome := hall b hbmem
      rw [classifyBlock_isSome_iff] at hsome
      exact hsome _ hbeq (by simp) (by simp [hfrag, convertToText])
    · have hl2 : layoutTextPart l =
          some ⟨l.rect, TextKind.PLAIN_TEXT, convertToText l.fragments, false, false⟩ := by
        simp [layoutTextPart, hcls]
      have hlnc : l ∈ nonCaptions layouts := by
        simp [nonCaptions, List.mem_filter, hlmem, isCaption, hcls]
      have hmm : layoutTextPart l ∈ (nonCaptions layouts).map layoutTextPart :=
        List.mem_map_of_mem _ hlnc
      rw [← hmap] at hmm
      obtain ⟨b, hbmem, hbtp⟩ := List.mem_map.mp hmm
      have hbeq : b = Block.text ⟨l.rect, TextKind.PLAIN_TEXT, convertToText l.fragments,
          false, false⟩ := textPart_eq_some (by rw [hbtp, hl2])
      have hsome := hall b hbmem
      rw [classifyBlock_isSome_iff] at hsome
      exact hsome _ hbeq (by simp) (by simp [hfrag, convertToText])

/-- C10 witness: a page whose only region is a TITLE with no fragments
assembles fine but crashes the classifier. -/
theorem c10_witness :
    convertToBlocks [emptyTitleL] = Except.ok [Block.text emptyTitleTB] ∧
    classifyPage [Block.text emptyTitleTB] = none := by
  have ha : convertToBlocks [emptyTitleL] = Except.ok [Block.text emptyTitleTB] := by rfl
  refine ⟨ha, ?_⟩
  exact (c10_empty_text_region_crashes [emptyTitleL] [Block.text emptyTitleTB] ha).mpr
    ⟨emptyTitleL, by simp, Or.inl rfl, rfl⟩

/-- C8 witness: the assembler succeeds on a one-figure page, and on a store
artificially holding a TextBlock under the FIGURE class a figure caption
step fails with the assertion error. -/
theorem c8_witness :
    (∃ blocks, convertToBlocks [figL] = Except.ok blocks) ∧
    stepLayout storeBad capL = Except.error PageError.assertionError :=
  ⟨c8_caption_assert.1 [figL],
   c8_caption_assert.2 storeBad capL LayoutClass.FIGURE (Block.text tbBad) rfl (by decide)
     (fun _ h => Block.noConfusion h)⟩

end PdfCraft
